import Mathlib

/-!
Verification development for the VisitorCheckin repository (a React visitor
registration app).  The definitions below are a shallow embedding of the
JavaScript source:

* `applyFilters`, `currentItems`, `totalPages` embed the visitor table logic of
  `src/admin/Visitors.jsx`;
* `fetchStats` embeds the dashboard aggregation of `src/admin/Dashboard.jsx`;
* `validateForm` embeds the registration form validation of
  `components/VisitorForm.jsx`;
* `submitVisitorForm`, `adminLogin`, `getVisitors`, `deleteVisitor`,
  `getDashboardStats` embed the API client of `services/api.js`;
* `TokenStore`, `stepAuth`, `isAuthenticated` embed the session handling of
  `services/auth.js` together with the 401 response interceptor of
  `services/api.js`.

JavaScript strings are modelled as Lean `String`s operated on through their
`List Char` data; JavaScript `undefined`/`null` field values are modelled as
`Option`; code that can throw (`undefined.toLowerCase()`,
`invalidDate.toISOString()`) is modelled in `Except`.  Timestamps are integers
in milliseconds since the Unix epoch; a field holding an unparsable date string
is classified `TsField.invalid` (an Invalid Date, whose time value is NaN).
`Array.prototype.sort` is modelled as a stable insertion sort; ECMAScript
requires sorting to be stable, which pins the result uniquely whenever the
comparator is consistent.  Per the ECMAScript `SortCompare` operation a NaN
comparator result is treated as `+0`.
-/

namespace VisitorCheckin

/-- Character-level lowercasing of a JS string (`String.prototype.toLowerCase`,
restricted to the ASCII range that the app's data uses). -/
def lowerL (l : List Char) : List Char := l.map Char.toLower

/-- Test whether `p` is an initial segment of `l` (helper for `includes`). -/
def isPrefL : List Char → List Char → Bool
  | [], _ => true
  | _ :: _, [] => false
  | a :: as, b :: bs => a = b && isPrefL as bs

/-- JS `hay.includes(needle)`: substring containment. -/
def subL (needle : List Char) : List Char → Bool
  | [] => needle.isEmpty
  | b :: t => isPrefL needle (b :: t) || subL needle t

/-- String wrapper for `includes`. -/
def subS (needle hay : String) : Bool := subL needle.data hay.data

/-- String wrapper for `toLowerCase`. -/
def lowerS (s : String) : String := ⟨lowerL s.data⟩

/-- Lexicographic `a <= b` on JS strings (code-unit comparison, as used by the
JS relational operators on strings). -/
def strLeL : List Char → List Char → Bool
  | [], _ => true
  | _ :: _, [] => false
  | a :: as, b :: bs =>
    if a.val < b.val then true
    else if b.val < a.val then false
    else strLeL as bs

/-- JS `a >= b` on strings. -/
def strGeS (a b : String) : Bool := strLeL b.data a.data

/-- JS `a <= b` on strings. -/
def strLeS (a b : String) : Bool := strLeL a.data b.data

/-- JS truthiness of a string: the empty string is falsy. -/
def jsTruthyS (s : String) : Bool := s ≠ ""

/-- JS `a || d` where `a` is an optional string field (absent fields are
`undefined`, hence falsy, and the empty string is falsy too). -/
def orDefault : Option String → String → String
  | none, d => d
  | some s, d => if s = "" then d else s

/-- Classification of a raw timestamp field as the JS code sees it:
`absent` is a falsy value (`undefined`, `null` or `''`), `invalid` is a truthy
value that `new Date(...)` fails to parse (giving an Invalid Date), and
`valid ms` is a truthy value parsing to the instant `ms` (milliseconds since
epoch). -/
inductive TsField where
  | absent
  | invalid
  | valid (ms : Int)
deriving DecidableEq, Repr

/-- JS `a || b` on raw timestamp fields: a falsy left operand yields the
right operand. -/
def TsField.jsOr : TsField → TsField → TsField
  | .absent, b => b
  | .invalid, _ => .invalid
  | .valid ms, _ => .valid ms

/-- A visitor record as the admin screens receive it from the backend.  Field
names may vary (`name`/`full_name`, `phone`/`phone_number`,
`checkin_time`/`entry_time`/`created_at`); absent fields are `none`. -/
structure VisitorRecord where
  id : Nat
  name : Option String
  full_name : Option String
  email : Option String
  phone : Option String
  phone_number : Option String
  purpose : Option String
  checkin_time : TsField
  entry_time : TsField
  created_at : TsField
deriving DecidableEq, Repr

/-- Sort direction of the visitor table (`sortOrder` state, `'desc'` default). -/
inductive SortOrder where
  | desc
  | asc
deriving DecidableEq, Repr

/-- The filter state owned by the Visitors screen: `searchTerm`,
`purposeFilter`, `dateRange.start`, `dateRange.end` and `sortOrder`. -/
structure FilterState where
  searchTerm : String
  purposeFilter : String
  startDate : String
  endDate : String
  sortOrder : SortOrder
deriving DecidableEq, Repr

/-- Runtime exceptions the filter pipeline can raise: `typeError` from
`undefined.toLowerCase()` and `rangeError` from `toISOString()` on an
Invalid Date. -/
inductive JsErr where
  | typeError
  | rangeError
deriving DecidableEq, Repr

/-- JS `Array.prototype.filter` with a callback that may throw: elements are
tested left to right and the first exception aborts the whole call. -/
def filterE (p : α → Except JsErr Bool) : List α → Except JsErr (List α)
  | [] => .ok []
  | x :: l =>
    match p x with
    | .error e => .error e
    | .ok b =>
      match filterE p l with
      | .error e => .error e
      | .ok r => .ok (if b then x :: r else r)

/-- Time value of `new Date(v.checkin_time || v.entry_time)` as used by the
Visitors screen; `none` is an Invalid Date (NaN time value), which also arises
when both fields are absent (`new Date(undefined)`). -/
def viewTime (v : VisitorRecord) : Option Int :=
  match v.checkin_time.jsOr v.entry_time with
  | .absent => none
  | .invalid => none
  | .valid ms => some ms

/-- Search predicate of `applyFilters` (Visitors.jsx lines 67-72), with the
JS `||` short-circuit: the email term is only evaluated when the name term is
false, and accessing `.toLowerCase()` on an absent email throws. -/
def searchPredE (search : String) (v : VisitorRecord) : Except JsErr Bool :=
  if subS search (lowerS (orDefault v.name (orDefault v.full_name ""))) then
    .ok true
  else
    match v.email with
    | none => .error .typeError
    | some e =>
      if subS search (lowerS e) then .ok true
      else .ok (subS search (orDefault v.phone (orDefault v.phone_number "")))

/-- Search stage of `applyFilters`: skipped entirely when `searchTerm` is
falsy, otherwise filters with the lowercased search term. -/
def searchStage (searchTerm : String) (l : List VisitorRecord) :
    Except JsErr (List VisitorRecord) :=
  if jsTruthyS searchTerm then
    filterE (searchPredE (lowerS searchTerm)) l
  else .ok l

/-- Purpose stage of `applyFilters`: `v.purpose === purposeFilter` (strict
equality, so an absent purpose never matches). -/
def purposeStage (purposeFilter : String) (l : List VisitorRecord) :
    List VisitorRecord :=
  if jsTruthyS purposeFilter ∧ purposeFilter ≠ "All" then
    l.filter (fun v => v.purpose = some purposeFilter)
  else l

/-- Number of milliseconds in one day. -/
def oneDay : Int := 86400000

/-- Days-since-epoch of a civil date (proleptic Gregorian; Howard Hinnant's
`days_from_civil`, the arithmetic ECMAScript `Date` is specified by).  `m` is
1-based. -/
def daysFromCivil (y m d : Int) : Int :=
  let y := if m ≤ 2 then y - 1 else y
  let era := y.ediv 400
  let yoe := y - era * 400
  let mp := if m > 2 then m - 3 else m + 9
  let doy := (153 * mp + 2).ediv 5 + d - 1
  let doe := yoe * 365 + yoe.ediv 4 - yoe.ediv 100 + doy
  era * 146097 + doe - 719468

/-- Civil date `(year, month, day)` of a days-since-epoch count (Hinnant's
`civil_from_days`).  `month` is 1-based. -/
def civilFromDays (z : Int) : Int × Int × Int :=
  let z := z + 719468
  let era := z.ediv 146097
  let doe := z - era * 146097
  let yoe := (doe - doe.ediv 1460 + doe.ediv 36524 - doe.ediv 146096).ediv 365
  let y := yoe + era * 400
  let doy := doe - (365 * yoe + yoe.ediv 4 - yoe.ediv 100)
  let mp := (5 * doy + 2).ediv 153
  let d := doy - (153 * mp + 2).ediv 5 + 1
  let m := if mp < 10 then mp + 3 else mp - 9
  (if m ≤ 2 then y + 1 else y, m, d)

/-- Decimal digits of a natural number (most significant first). -/
def digitsOf (n : Nat) : List Char :=
  (Nat.toDigits 10 n)

/-- Left-pad a numeral with zeros to width `w`. -/
def padNum (w : Nat) (n : Nat) : String :=
  let ds := digitsOf n
  ⟨List.replicate (w - ds.length) '0' ++ ds⟩

/-- Date part of `new Date(ms).toISOString()` — the UTC calendar date rendered
as `YYYY-MM-DD` (this is what `.toISOString().split('T')[0]` yields; years are
taken in 0..9999 so the four-digit form applies). -/
def isoDateStr (ms : Int) : String :=
  let (y, m, d) := civilFromDays (ms.ediv oneDay)
  padNum 4 y.toNat ++ "-" ++ padNum 2 m.toNat ++ "-" ++ padNum 2 d.toNat

/-- Modelled from the spec: the "local calendar date" of a timestamp, for an
environment whose local timezone is `off` minutes ahead of UTC.  The spec's
date predicate (§4.1) is stated in terms of this date; the code has no such
computation (it uses `toISOString`, which is UTC). -/
def localDateStr (off : Int) (ms : Int) : String :=
  isoDateStr (ms + off * 60000)

/-- Date predicate of one bound of the date-range stage (Visitors.jsx lines
82-84 and 88-90): render the record's check-in instant as a UTC ISO date and
compare it with the bound as strings.  Throws `RangeError` when the instant is
an Invalid Date (`toISOString` on NaN). -/
def dateBoundPredE (cmp : String → String → Bool) (bound : String)
    (v : VisitorRecord) : Except JsErr Bool :=
  match viewTime v with
  | none => .error .rangeError
  | some ms => .ok (cmp (isoDateStr ms) bound)

/-- Date-range stage of `applyFilters`: the start bound (if truthy) then the
end bound (if truthy), each a separate `filter` pass. -/
def dateStage (startDate endDate : String) (l : List VisitorRecord) :
    Except JsErr (List VisitorRecord) :=
  match
    (if jsTruthyS startDate then filterE (dateBoundPredE strGeS startDate) l
     else .ok l) with
  | .error e => .error e
  | .ok l₁ =>
    if jsTruthyS endDate then filterE (dateBoundPredE strLeS endDate) l₁
    else .ok l₁

/-- Comparator of the sort stage (Visitors.jsx lines 95-99):
`dateB - dateA` for descending, `dateA - dateB` for ascending; `none` is the
NaN produced when either date is invalid. -/
def cmpJS (o : SortOrder) (a b : VisitorRecord) : Option Int :=
  match viewTime a, viewTime b with
  | some ta, some tb =>
    some (match o with
      | .desc => tb - ta
      | .asc => ta - tb)
  | _, _ => none

/-- Strict "a sorts before b" derived from the comparator: `cmp(a,b) < 0`.
Per ECMAScript `SortCompare` a NaN comparator value is treated as `+0`, so an
invalid date is never strictly before or after anything. -/
def ltJS (o : SortOrder) (a b : VisitorRecord) : Bool :=
  match cmpJS o a b with
  | some c => c < 0
  | none => false

/-- Stable insertion into a list: `x` is placed before the first element `b`
that does not sort strictly before `x`.  Elements already in the list came
earlier in `Array.prototype.sort`'s stable order. -/
def stableInsert (lt : α → α → Bool) (x : α) : List α → List α
  | [] => [x]
  | b :: l => if lt b x then b :: stableInsert lt x l else x :: b :: l

/-- Stable sort (model of `Array.prototype.sort`, which ECMAScript requires to
be stable; for a consistent comparator stability pins the result uniquely). -/
def stableSort (lt : α → α → Bool) : List α → List α
  | [] => []
  | x :: l => stableInsert lt x (stableSort lt l)

/-- The `applyFilters` pipeline of Visitors.jsx (lines 61-103): search filter,
purpose filter, date-range filter, then sort by check-in date. -/
def applyFilters (visitors : List VisitorRecord) (f : FilterState) :
    Except JsErr (List VisitorRecord) :=
  match searchStage f.searchTerm visitors with
  | .error e => .error e
  | .ok l₁ =>
    match dateStage f.startDate f.endDate (purposeStage f.purposeFilter l₁) with
    | .error e => .error e
    | .ok l₃ => .ok (stableSort (ltJS f.sortOrder) l₃)

/-- Page `page` of the filtered list (Visitors.jsx lines 157-160):
`filteredVisitors.slice((page-1)*itemsPerPage, page*itemsPerPage)`. -/
def currentItems (l : List VisitorRecord) (page size : Nat) :
    List VisitorRecord :=
  (l.drop ((page - 1) * size)).take size

/-- Page count (Visitors.jsx line 161):
`Math.ceil(filteredVisitors.length / itemsPerPage)`. -/
def totalPages (l : List VisitorRecord) (size : Nat) : Nat :=
  (l.length + size - 1) / size

/-- The dashboard statistics object (Dashboard.jsx state shape). -/
structure DashStats where
  total_visitors : Nat
  today_visitors : Nat
  this_week_visitors : Nat
  this_month_visitors : Nat
deriving DecidableEq, Repr

/-- Time value of
`new Date(visitor.checkin_time || visitor.entry_time || visitor.created_at || Date.now())`
(Dashboard.jsx line 46): when all three fields are falsy, `Date.now()` (the
current instant) is used; an unparsable field gives an Invalid Date, whose
`getTime()` is NaN (`none`). -/
def dashTime (nowMs : Int) (v : VisitorRecord) : Option Int :=
  match (v.checkin_time.jsOr v.entry_time).jsOr v.created_at with
  | .absent => some nowMs
  | .invalid => none
  | .valid ms => some ms

/-- JS `t >= bound` where `t` may be NaN: any comparison with NaN is false. -/
def geNaN : Option Int → Int → Bool
  | none, _ => false
  | some t, b => b ≤ t

/-- Local calendar day count (days since epoch of the local date) of the
current instant, for a timezone `off` minutes ahead of UTC. -/
def localDaysOf (off nowMs : Int) : Int := (nowMs + off * 60000).ediv oneDay

/-- Dashboard.jsx line 40:
`new Date(now.getFullYear(), now.getMonth(), now.getDate()).getTime()` —
the instant of local midnight of the current day. -/
def todayStart (off nowMs : Int) : Int :=
  let c := civilFromDays (localDaysOf off nowMs)
  daysFromCivil c.1 c.2.1 c.2.2 * oneDay - off * 60000

/-- Local day count after the in-place `now.setDate(now.getDate() - now.getDay())`
of Dashboard.jsx line 42: the day-of-month is replaced by
`getDate() - getDay()`, rolling across month boundaries when that value is
not positive.  Day-of-week uses epoch day 0 = Thursday (= 4 in JS `getDay`). -/
def mutatedDays (off nowMs : Int) : Int :=
  let c := civilFromDays (localDaysOf off nowMs)
  daysFromCivil c.1 c.2.1 1 + (c.2.2 - (localDaysOf off nowMs + 4).emod 7 - 1)

/-- Dashboard.jsx line 42: the `weekStart` instant — the Sunday of the current
week at the current local time of day (`setDate` keeps the time of day). -/
def weekStartMs (off nowMs : Int) : Int :=
  mutatedDays off nowMs * oneDay + (nowMs + off * 60000).emod oneDay
    - off * 60000

/-- Dashboard.jsx line 43:
`new Date(now.getFullYear(), now.getMonth(), 1).getTime()` — but `now` has
already been mutated by line 42, so this is the first of the month containing
the week-start day, not necessarily the current month. -/
def monthStartMs (off nowMs : Int) : Int :=
  let c := civilFromDays (mutatedDays off nowMs)
  daysFromCivil c.1 c.2.1 1 * oneDay - off * 60000

/-- The local-statistics computation of `fetchStats` (Dashboard.jsx lines
39-70), for an environment whose local timezone is `off` minutes ahead of UTC
and whose current instant is `nowMs`. -/
def fetchStats (off : Int) (nowMs : Int) (visitors : List VisitorRecord) :
    DashStats :=
  let today := todayStart off nowMs
  let weekStart := weekStartMs off nowMs
  let monthStart := monthStartMs off nowMs
  visitors.foldl
    (fun acc v =>
      let t := dashTime nowMs v
      { total_visitors := acc.total_visitors + 1
        today_visitors := acc.today_visitors + if geNaN t today then 1 else 0
        this_week_visitors :=
          acc.this_week_visitors + if geNaN t weekStart then 1 else 0
        this_month_visitors :=
          acc.this_month_visitors + if geNaN t monthStart then 1 else 0 })
    ⟨0, 0, 0, 0⟩

/-- Modelled from the spec: the count of records "with check-in date == today"
(§4.1), i.e. whose local calendar date equals the local calendar date of the
current moment.  Used to compare the claimed aggregation with `fetchStats`. -/
def specTodayCount (off : Int) (nowMs : Int)
    (visitors : List VisitorRecord) : Nat :=
  visitors.countP fun v =>
    match dashTime nowMs v with
    | none => false
    | some t => localDateStr off t = localDateStr off nowMs

/-- Whitespace characters for the purposes of JS `trim` and the `\s` regex
class (ASCII part). -/
def isJsWs (c : Char) : Bool :=
  c = ' ' || c = '\t' || c = '\n' || c = '\r' || c = '\x0b' || c = '\x0c'

/-- JS `String.prototype.trim`. -/
def trimL (l : List Char) : List Char :=
  ((l.dropWhile isJsWs).reverse.dropWhile isJsWs).reverse

/-- Characters excluded by the `[^\s@]` class of the email regex. -/
def isEmailSpecial (c : Char) : Bool := isJsWs c || c = '@'

/-- All remainders obtainable by consuming one or more `[^\s@]` characters
from the front of `l` (the backtracking choices of a `[^\s@]+` atom). -/
def tailsAfterSeg : List Char → List (List Char)
  | [] => []
  | c :: r => if isEmailSpecial c then [] else r :: tailsAfterSeg r

/-- The email regex `/^[^\s@]+@[^\s@]+\.[^\s@]+$/` of `validateForm`, as a
backtracking matcher over its three `[^\s@]+` atoms. -/
def matchEmail (s : String) : Bool :=
  (tailsAfterSeg s.data).any fun t₁ =>
    match t₁ with
    | '@' :: t₂ =>
      (tailsAfterSeg t₂).any fun t₃ =>
        match t₃ with
        | '.' :: t₄ => (tailsAfterSeg t₄).any List.isEmpty
        | _ => false
    | _ => false

/-- JS `phone.replace(/[\s-]/g, '')`: strip whitespace and hyphens. -/
def stripPhone (l : List Char) : List Char :=
  l.filter fun c => !(isJsWs c || c = '-')

/-- The phone regex `/^[0-9]{10,15}$/` of `validateForm`. -/
def matchPhone (l : List Char) : Bool :=
  l.all Char.isDigit && decide (10 ≤ l.length) && decide (l.length ≤ 15)

/-- The registration form's data (VisitorForm.jsx `formData` state). -/
structure FormData where
  name : String
  email : String
  phone : String
  host : String
  purpose : String
  message : String
deriving DecidableEq, Repr

/-- The `validateForm` function of VisitorForm.jsx (lines 37-66): the
field → error-message map it builds, as an association list in the order the
source inserts the keys. -/
def validateForm (fd : FormData) : List (String × String) :=
  (if (trimL fd.name.data).isEmpty then [("name", "Full name is required")]
   else if (trimL fd.name.data).length < 2 then
     [("name", "Name must be at least 2 characters")]
   else [])
  ++ (if (trimL fd.email.data).isEmpty then [("email", "Email is required")]
      else if !matchEmail fd.email then [("email", "Invalid email format")]
      else [])
  ++ (if (trimL fd.phone.data).isEmpty then
        [("phone", "Phone number is required")]
      else if !matchPhone (stripPhone fd.phone.data) then
        [("phone", "Invalid phone number (10-15 digits)")]
      else [])
  ++ (if fd.purpose = "" then [("purpose", "Purpose of visit is required")]
      else [])

/-- Whether `handleSubmit` (VisitorForm.jsx lines 83-96) reaches the
`submitVisitorForm` API call: it returns early when `validateForm` reports any
error. -/
def handleSubmit (fd : FormData) : Bool :=
  decide (validateForm fd = [])

/-- Fields of `error.response?.data` that the API client's catch blocks
read. -/
structure BackendPayload where
  message : Option String
  detail : Option String
deriving DecidableEq, Repr

/-- Outcome of one HTTP request as axios delivers it to the client's
`try`/`catch`: a resolved response (with opaque payload `data`), an HTTP error
response (status plus optional JSON body), a timeout
(`error.code === 'ECONNABORTED'`) or a network failure
(`error.message === 'Network Error'`). -/
inductive CallOutcome where
  | success (data : String)
  | httpError (status : Nat) (data : Option BackendPayload)
  | timeoutErr
  | networkErr
deriving DecidableEq, Repr

/-- The uniform result shape every API-client function returns:
`{success: true, data}` or `{success: false, error}`. -/
structure ApiResult where
  success : Bool
  data : Option String
  error : Option String
deriving DecidableEq, Repr

/-- JS `error.response?.data?.message` (optional chaining). -/
def respDataMessage : CallOutcome → Option String
  | .httpError _ (some p) => p.message
  | _ => none

/-- JS `error.response?.data?.detail` (optional chaining). -/
def respDataDetail : CallOutcome → Option String
  | .httpError _ (some p) => p.detail
  | _ => none

/-- The catch block shared (up to message) by `submitVisitorForm`,
`getVisitors`, `deleteVisitor` and `getDashboardStats`:
`error.response?.data?.message || fallback`. -/
def catchResult (fallback : String) (o : CallOutcome) : ApiResult :=
  ⟨false, none, some (orDefault (respDataMessage o) fallback)⟩

/-- The `submitVisitorForm` API function (api.js lines 58-78). -/
def submitVisitorForm : CallOutcome → ApiResult
  | .success d => ⟨true, some d, none⟩
  | o => catchResult "Failed to submit visitor form. Please try again." o

/-- Error-message cascade of `adminLogin`'s catch block (api.js lines
96-105). -/
def adminLoginError (o : CallOutcome) : String :=
  if o = .timeoutErr then
    "Request timed out. Please check your network connection."
  else if o = .networkErr then
    "Network error. Please ensure the server is running."
  else
    orDefault (respDataDetail o)
      (orDefault (respDataMessage o) "Invalid credentials. Please try again.")

/-- The `adminLogin` API function (api.js lines 88-112). -/
def adminLogin : CallOutcome → ApiResult
  | .success d => ⟨true, some d, none⟩
  | o => ⟨false, none, some (adminLoginError o)⟩

/-- The `getVisitors` API function (api.js lines 119-130). -/
def getVisitors : CallOutcome → ApiResult
  | .success d => ⟨true, some d, none⟩
  | o => catchResult "Failed to fetch visitors. Please try again." o

/-- The `deleteVisitor` API function (api.js lines 155-166). -/
def deleteVisitor : CallOutcome → ApiResult
  | .success d => ⟨true, some d, none⟩
  | o => catchResult "Failed to delete visitor." o

/-- The `getDashboardStats` API function (api.js lines 172-183). -/
def getDashboardStats : CallOutcome → ApiResult
  | .success d => ⟨true, some d, none⟩
  | o => catchResult "Failed to fetch dashboard statistics." o

/-- The Token Store (auth.js): the `authToken` and `adminUser` entries of
`localStorage`; `none` means the key is absent. -/
structure TokenStore where
  authToken : Option String
  adminUser : Option String
deriving DecidableEq, Repr

/-- JS truthiness of `localStorage.getItem(...)`: `null` (absent) and the
empty string are falsy. -/
def jsTruthyOpt : Option String → Bool
  | none => false
  | some s => s ≠ ""

/-- The `isAuthenticated` check of auth.js (lines 254-256):
`!!getAuthToken()`. -/
def isAuthenticated (s : TokenStore) : Bool := jsTruthyOpt s.authToken

/-- Events that touch the Token Store: `login(token, user)` (auth.js, which
stores each value only when it is truthy), `logout`, and an HTTP response of a
given status arriving at the API client's response interceptor. -/
inductive AuthEvent where
  | loginEv (token user : String)
  | logoutEv
  | responseEv (status : Nat)
deriving DecidableEq, Repr

/-- State transition of the Token Store.  The 401 branch is the response
interceptor of api.js (lines 38-47): it removes both `authToken` and
`adminUser`. -/
def stepAuth (s : TokenStore) : AuthEvent → TokenStore
  | .loginEv t u =>
    { authToken := if t ≠ "" then some t else s.authToken
      adminUser := if u ≠ "" then some u else s.adminUser }
  | .logoutEv => ⟨none, none⟩
  | .responseEv st => if st = 401 then ⟨none, none⟩ else s

/-- Search predicate as the spec states it, read case-insensitively (the
lowercased search string is a substring of the lowercased name, or of the
lowercased email, or of the phone — the code lowercases name and email but
not the phone). -/
def matchesSearch (s : String) (v : VisitorRecord) : Bool :=
  subS (lowerS s) (lowerS (orDefault v.name (orDefault v.full_name ""))) ||
  subS (lowerS s) (lowerS (v.email.getD "")) ||
  subS (lowerS s) (orDefault v.phone (orDefault v.phone_number ""))

/-- Sortedness relation on adjacent/ordered pairs of the sorted output: when
both records carry valid timestamps, the earlier-listed one has the larger
timestamp under `desc` and the smaller under `asc`. -/
def tsSortedPair (o : SortOrder) (a b : VisitorRecord) : Prop :=
  ∀ ta tb, viewTime a = some ta → viewTime b = some tb →
    match o with
    | .desc => tb ≤ ta
    | .asc => ta ≤ tb

/-- Modelled from the spec: the sort comparator the spec describes, in which a
record with a missing or unparsable timestamp is compared "using now as
fallback" (§4.1); the code has no such fallback in its sort. -/
def ltSpecNow (now : Int) (o : SortOrder) (a b : VisitorRecord) : Bool :=
  let ka := (viewTime a).getD now
  let kb := (viewTime b).getD now
  match o with
  | .desc => kb - ka < 0
  | .asc => ka - kb < 0

/-- Combined date-range predicate on a record with a valid timestamp: the UTC
ISO date of the check-in instant is `>= start` when `start` is set and
`<= end` when `end` is set. -/
def datePassB (startDate endDate : String) (v : VisitorRecord) : Bool :=
  (!jsTruthyS startDate || strGeS (isoDateStr ((viewTime v).getD 0)) startDate)
    && (!jsTruthyS endDate
      || strLeS (isoDateStr ((viewTime v).getD 0)) endDate)

/-- Concrete record from the spec's scenario: Alice, purpose Interview,
checked in 2024-01-01T00:00Z. -/
def aliceRec : VisitorRecord :=
  ⟨1, some "Alice", none, some "alice@example.com", some "1111111111", none,
    some "Interview", .valid 1704067200000, .absent, .absent⟩

/-- Concrete record from the spec's scenario: Bob, purpose Delivery, checked
in 2024-01-15T00:00Z. -/
def bobRec : VisitorRecord :=
  ⟨2, some "Bob", none, some "bob@example.com", some "2222222222", none,
    some "Delivery", .valid 1705276800000, .absent, .absent⟩

/-- Filter state of the scenario `filter={search:"bo"}` (all other filters at
their defaults). -/
def filterBo : FilterState := ⟨"bo", "", "", "", .desc⟩

/-- Concrete record checked in at 1970-01-01T20:00:00Z, which in a UTC+5:30
timezone falls on the local date 1970-01-02. -/
def lateEveningRec : VisitorRecord :=
  ⟨3, some "Ravi", none, some "ravi@example.com", none, none, none,
    .valid 72000000, .absent, .absent⟩

/-- Filter state with only a start date bound of 1970-01-02. -/
def filterStart : FilterState := ⟨"", "", "1970-01-02", "", .desc⟩

/-- Concrete record with a valid timestamp 0 ms. -/
def recT0 : VisitorRecord :=
  ⟨4, none, none, some "a@b.c", none, none, none, .valid 0, .absent, .absent⟩

/-- Concrete record with a valid timestamp 100 ms. -/
def recT100 : VisitorRecord :=
  ⟨5, none, none, some "a@b.c", none, none, none, .valid 100, .absent,
    .absent⟩

/-- Concrete record whose timestamp fields are unparsable (an Invalid
Date). -/
def recInv : VisitorRecord :=
  ⟨6, none, none, some "a@b.c", none, none, none, .invalid, .absent, .absent⟩

/-- Concrete record carrying no email field at all. -/
def noEmailRec : VisitorRecord :=
  ⟨7, none, none, none, some "3333333333", none, none, .valid 0, .absent,
    .absent⟩

/-- Concrete record dated one millisecond into 1970-01-02 (UTC), i.e. dated
tomorrow relative to the instant 0. -/
def futureRec : VisitorRecord :=
  ⟨8, none, none, none, none, none, none, .valid 86400001, .absent, .absent⟩

/-- Concrete record checked in at the instant 45296000 ms
(1970-01-01T12:34:56Z). -/
def todayRec (n : Nat) : VisitorRecord :=
  ⟨n, none, none, none, none, none, none, .valid 45296000, .absent, .absent⟩

/-- Concrete registration form submission with phone `"12a"` and every other
field valid. -/
def fd12a : FormData :=
  ⟨"John Doe", "john@example.com", "12a", "", "Interview", ""⟩

/-- Shape every API-client result must have according to the spec: success
with data, or failure with a non-empty human-readable message. -/
def uniformResult (r : ApiResult) : Prop :=
  (r.success = true ∧ r.data.isSome = true ∧ r.error = none) ∨
  (r.success = false ∧ r.data = none ∧ ∃ m, r.error = some m ∧ m ≠ "")

/-! Helper lemmas about `filterE` (the throwing `Array.prototype.filter`). -/

theorem filterE_eq_filter (p : α → Except JsErr Bool) (q : α → Bool)
    (l : List α) (h : ∀ v ∈ l, p v = .ok (q v)) :
    filterE p l = .ok (l.filter q) := by
  induction l with
  | nil => rfl
  | cons x t ih =>
    have hx := h x (by simp)
    have ht := ih fun v hv => h v (by simp [hv])
    simp only [filterE, hx, ht, List.filter_cons]

theorem filterE_ok_mem (p : α → Except JsErr Bool) (l r : List α)
    (h : filterE p l = .ok r) : ∀ v ∈ r, v ∈ l ∧ p v = .ok true := by
  induction l generalizing r with
  | nil =>
    simp only [filterE] at h
    cases h
    simp
  | cons x t ih =>
    simp only [filterE] at h
    cases hx : p x with
    | error e => rw [hx] at h; simp at h
    | ok b =>
      rw [hx] at h
      cases ht : filterE p t with
      | error e => rw [ht] at h; simp at h
      | ok rt =>
        rw [ht] at h
        simp only [Except.ok.injEq] at h
        intro v hv
        have htail := ih rt ht
        cases b with
        | false =>
          simp only [if_neg (by simp : ¬(false = true))] at h
          subst h
          exact ⟨List.mem_cons_of_mem x (htail v hv).1, (htail v hv).2⟩
        | true =>
          simp only [if_pos rfl] at h
          subst h
          rcases List.mem_cons.mp hv with hvx | hvt
          · subst hvx; exact ⟨List.mem_cons_self _ _, hx⟩
          · exact ⟨List.mem_cons_of_mem x (htail v hvt).1, (htail v hvt).2⟩

theorem filterE_ok_self (p : α → Except JsErr Bool) (l : List α)
    (h : ∀ v ∈ l, p v = .ok true) : filterE p l = .ok l := by
  have := filterE_eq_filter p (fun _ => true) l (by simpa using h)
  simpa using this

/-! Helper lemmas about `stableSort` (the model of `Array.prototype.sort`). -/

theorem stableInsert_perm (lt : α → α → Bool) (x : α) (l : List α) :
    (stableInsert lt x l).Perm (x :: l) := by
  induction l with
  | nil => rfl
  | cons b t ih =>
    simp only [stableInsert]
    by_cases hb : lt b x = true
    · simp only [hb, if_true]
      exact (ih.cons b).trans (List.Perm.swap x b t)
    · simp [hb]

theorem stableSort_perm (lt : α → α → Bool) (l : List α) :
    (stableSort lt l).Perm l := by
  induction l with
  | nil => rfl
  | cons x t ih =>
    exact (stableInsert_perm lt x (stableSort lt t)).trans (ih.cons x)

theorem mem_stableInsert (lt : α → α → Bool) (x v : α) (l : List α) :
    v ∈ stableInsert lt x l ↔ v = x ∨ v ∈ l := by
  rw [(stableInsert_perm lt x l).mem_iff]
  simp

theorem mem_stableSort (lt : α → α → Bool) (v : α) (l : List α) :
    v ∈ stableSort lt l ↔ v ∈ l := (stableSort_perm lt l).mem_iff

theorem chain_stableInsert (lt : α → α → Bool)
    (hasym : ∀ a b, lt a b = true → lt b a = false) (x : α) (l : List α)
    (hl : l.Chain' fun a b => lt b a = false) :
    (stableInsert lt x l).Chain' fun a b => lt b a = false := by
  induction l with
  | nil => simp [stableInsert]
  | cons b t ih =>
    simp only [stableInsert]
    by_cases hb : lt b x = true
    · simp only [hb, if_true]
      have ht : t.Chain' fun a b => lt b a = false := hl.tail
      have hins := ih ht
      cases hi : stableInsert lt x t with
      | nil => simp
      | cons y ys =>
        rw [hi] at hins
        apply List.Chain'.cons _ hins
        have hy : y = x ∨ y ∈ t := by
          have := (mem_stableInsert lt x y t).mp (by rw [hi]; simp)
          exact this
        rcases hy with rfl | hyt
        · exact hasym _ _ hb
        · cases t with
          | nil => simp at hyt
          | cons c cs =>
            simp only [stableInsert] at hi
            by_cases hc : lt c x = true
            · rw [if_pos hc] at hi
              cases hi
              exact (List.chain'_cons.mp hl).1
            · rw [if_neg hc] at hi
              cases hi
              exact hasym _ _ hb
    · simp only [hb, if_false]
      exact List.Chain'.cons (by simpa using hb) hl

theorem chain_stableSort (lt : α → α → Bool)
    (hasym : ∀ a b, lt a b = true → lt b a = false) (l : List α) :
    (stableSort lt l).Chain' fun a b => lt b a = false := by
  induction l with
  | nil => simp [stableSort]
  | cons x t ih => exact chain_stableInsert lt hasym x _ ih

theorem stableSort_of_chain (lt : α → α → Bool) (l : List α)
    (h : l.Chain' fun a b => lt b a = false) : stableSort lt l = l := by
  induction l with
  | nil => rfl
  | cons x t ih =>
    have ht := ih h.tail
    simp only [stableSort, ht]
    cases t with
    | nil => rfl
    | cons b bs =>
      have hb : lt b x = false := (List.chain'_cons.mp h).1
      simp [stableInsert, hb]

theorem stableSort_idem (lt : α → α → Bool)
    (hasym : ∀ a b, lt a b = true → lt b a = false) (l : List α) :
    stableSort lt (stableSort lt l) = stableSort lt l :=
  stableSort_of_chain lt _ (chain_stableSort lt hasym l)

theorem pairwise_stableInsert (lt : α → α → Bool) (R : α → α → Prop)
    (x : α) (l : List α) (hl : l.Pairwise R)
    (hpre : ∀ b ∈ l, lt b x = true → R b x)
    (hpost : ∀ b ∈ l, lt b x = false → R x b)
    (hclos : ∀ b ∈ l, ∀ c ∈ l, lt b x = false → R b c → lt c x = false) :
    (stableInsert lt x l).Pairwise R := by
  induction l with
  | nil => simp [stableInsert]
  | cons b t ih =>
    rcases List.pairwise_cons.mp hl with ⟨hbt, ht⟩
    simp only [stableInsert]
    by_cases hb : lt b x = true
    · simp only [hb, if_true]
      refine List.pairwise_cons.mpr ⟨?_, ?_⟩
      · intro y hy
        rcases (mem_stableInsert lt x y t).mp hy with rfl | hyt
        · exact hpre b (by simp) hb
        · exact hbt y hyt
      · exact ih ht (fun c hc => hpre c (by simp [hc]))
          (fun c hc => hpost c (by simp [hc]))
          (fun c hc d hd => hclos c (by simp [hc]) d (by simp [hd]))
    · replace hb : lt b x = false := by simpa using hb
      simp only [hb, if_false]
      refine List.pairwise_cons.mpr ⟨?_, hl⟩
      intro y hy
      rcases List.mem_cons.mp hy with rfl | hyt
      · exact hpost y (by simp) hb
      · exact hpost y (by simp [hyt])
          (hclos b (by simp) y (by simp [hyt]) hb (hbt y hyt))

theorem pairwise_stableSort (lt : α → α → Bool) (R : α → α → Prop)
    (l : List α)
    (hpre : ∀ a ∈ l, ∀ b ∈ l, lt a b = true → R a b)
    (hpost : ∀ a ∈ l, ∀ b ∈ l, lt b a = false → R a b)
    (hclos : ∀ a ∈ l, ∀ b ∈ l, ∀ c ∈ l,
      lt b a = false → R b c → lt c a = false) :
    (stableSort lt l).Pairwise R := by
  induction l with
  | nil => simp [stableSort]
  | cons x t ih =>
    have hmem : ∀ y ∈ stableSort lt t, y ∈ x :: t := by
      intro y hy
      exact List.mem_cons_of_mem x ((mem_stableSort lt y t).mp hy)
    simp only [stableSort]
    refine pairwise_stableInsert lt R x (stableSort lt t) ?_ ?_ ?_ ?_
    · exact ih (fun a ha b hb => hpre a (by simp [ha]) b (by simp [hb]))
        (fun a ha b hb => hpost a (by simp [ha]) b (by simp [hb]))
        (fun a ha b hb c hc =>
          hclos a (by simp [ha]) b (by simp [hb]) c (by simp [hc]))
    · exact fun b hb h => hpre b (hmem b hb) x (by simp) h
    · exact fun b hb h => hpost x (by simp) b (hmem b hb) h
    · exact fun b hb c hc h hr =>
        hclos x (by simp) b (hmem b hb) c (hmem c hc) h hr

theorem sublist_pair_of_mem {a b : α} {l : List α} (hab : a ≠ b)
    (ha : a ∈ l) (hb : b ∈ l) : List.Sublist [a, b] l ∨ List.Sublist [b, a] l := by
  induction l with
  | nil => simp at ha
  | cons x t ih =>
    by_cases hxa : x = a
    · subst hxa
      left
      have hbt : b ∈ t := by
        rcases List.mem_cons.mp hb with h | h
        · exact (hab h.symm).elim
        · exact h
      exact (List.singleton_sublist.mpr hbt).cons₂ x
    · by_cases hxb : x = b
      · subst hxb
        right
        have hat : a ∈ t := by
          rcases List.mem_cons.mp ha with h | h
          · exact (hab h).elim
          · exact h
        exact (List.singleton_sublist.mpr hat).cons₂ x
      · have hat : a ∈ t := by
          rcases List.mem_cons.mp ha with h | h
          · exact (hxa h.symm).elim
          · exact h
        have hbt : b ∈ t := by
          rcases List.mem_cons.mp hb with h | h
          · exact (hxb h.symm).elim
          · exact h
        rcases ih hat hbt with h | h
        · exact Or.inl (h.cons x)
        · exact Or.inr (h.cons x)

theorem ltJS_asymm (o : SortOrder) (a b : VisitorRecord) :
    ltJS o a b = true → ltJS o b a = false := by
  unfold ltJS cmpJS
  cases ha : viewTime a <;> cases hb : viewTime b <;> simp
  all_goals cases o <;> simp <;> omega

/-! Claim C8: uniform API results. -/

theorem orDefault_ne_empty (x : Option String) (d : String) (hd : d ≠ "") :
    orDefault x d ≠ "" := by
  cases x with
  | none => simpa [orDefault]
  | some s =>
    by_cases hs : s = "" <;> simp [orDefault, hs, hd]

theorem catchResult_uniform (fb : String) (hfb : fb ≠ "") (o : CallOutcome) :
    uniformResult (catchResult fb o) :=
  Or.inr ⟨rfl, rfl, orDefault (respDataMessage o) fb, rfl,
    orDefault_ne_empty _ _ hfb⟩

theorem adminLoginError_ne_empty (o : CallOutcome) : adminLoginError o ≠ "" := by
  unfold adminLoginError
  split_ifs
  · decide
  · decide
  · exact orDefault_ne_empty _ _ (orDefault_ne_empty _ _ (by decide))

/-- Claim C8: every API-client operation (submit-visitor, admin-login,
list-visitors, delete-visitor, get-dashboard-stats) returns a uniform
success/failure result and never raises: on success the result carries data
and no error, on failure it carries a non-empty human-readable message derived
from the transport error or the backend payload.  (Totality of the Lean
functions models "no error escapes to an unhandled state": every outcome of
the underlying HTTP call is mapped to a result.) -/
theorem api_client_uniform_results :
    ∀ o : CallOutcome,
      uniformResult (submitVisitorForm o) ∧ uniformResult (adminLogin o) ∧
      uniformResult (getVisitors o) ∧ uniformResult (deleteVisitor o) ∧
      uniformResult (getDashboardStats o) := by
  intro o
  cases o with
  | success d =>
    exact ⟨Or.inl ⟨rfl, rfl, rfl⟩, Or.inl ⟨rfl, rfl, rfl⟩,
      Or.inl ⟨rfl, rfl, rfl⟩, Or.inl ⟨rfl, rfl, rfl⟩, Or.inl ⟨rfl, rfl, rfl⟩⟩
  | httpError st p =>
    exact ⟨catchResult_uniform _ (by decide) _,
      Or.inr ⟨rfl, rfl, _, rfl, adminLoginError_ne_empty _⟩,
      catchResult_uniform _ (by decide) _,
      catchResult_uniform _ (by decide) _,
      catchResult_uniform _ (by decide) _⟩
  | timeoutErr =>
    exact ⟨catchResult_uniform _ (by decide) _,
      Or.inr ⟨rfl, rfl, _, rfl, adminLoginError_ne_empty _⟩,
      catchResult_uniform _ (by decide) _,
      catchResult_uniform _ (by decide) _,
      catchResult_uniform _ (by decide) _⟩
  | networkErr =>
    exact ⟨catchResult_uniform _ (by decide) _,
      Or.inr ⟨rfl, rfl, _, rfl, adminLoginError_ne_empty _⟩,
      catchResult_uniform _ (by decide) _,
      catchResult_uniform _ (by decide) _,
      catchResult_uniform _ (by decide) _⟩

/-! Claim C9: a 401 response clears the Token Store. -/

theorem foldl_auth_token_none (evs : List AuthEvent) (s : TokenStore)
    (hs : s.authToken = none)
    (hevs : ∀ t u, AuthEvent.loginEv t u ∈ evs → t = "") :
    (evs.foldl stepAuth s).authToken = none := by
  induction evs generalizing s with
  | nil => simpa
  | cons e tl ih =>
    have htl : ∀ t u, AuthEvent.loginEv t u ∈ tl → t = "" :=
      fun t u h => hevs t u (by simp [h])
    cases e with
    | loginEv t u =>
      have ht : t = "" := hevs t u (by simp)
      refine ih _ ?_ htl
      simp [stepAuth, ht, hs]
    | logoutEv => exact ih _ rfl htl
    | responseEv st =>
      refine ih _ ?_ htl
      by_cases h : st = 401 <;> simp [stepAuth, h, hs]

theorem foldl_auth_token_ne_blank (evs : List AuthEvent) (s : TokenStore)
    (hs : s.authToken ≠ some "") :
    (evs.foldl stepAuth s).authToken ≠ some "" := by
  induction evs generalizing s with
  | nil => simpa
  | cons e tl ih =>
    cases e with
    | loginEv t u =>
      refine ih _ ?_
      by_cases ht : t = "" <;> simp [stepAuth, ht, hs]
    | logoutEv => exact ih _ (by simp [stepAuth])
    | responseEv st =>
      refine ih _ ?_
      by_cases h : st = 401 <;> simp [stepAuth, h, hs]

/-- Claim C9: an HTTP 401 response at the interceptor clears the Token Store
(both token and user profile); afterwards, as long as no login with a truthy
token occurs, every protected-route check reports Unauthenticated.  The
Authenticated/Unauthenticated state depends only on the stored token, and on
every store reachable from the empty store it coincides with the presence of
the token. -/
theorem unauthorized_clears_token_store :
    (∀ s : TokenStore, stepAuth s (.responseEv 401) = ⟨none, none⟩) ∧
    (∀ (s : TokenStore) (evs : List AuthEvent),
      (∀ t u, AuthEvent.loginEv t u ∈ evs → t = "") →
      isAuthenticated (evs.foldl stepAuth (stepAuth s (.responseEv 401)))
        = false) ∧
    (∀ s₁ s₂ : TokenStore, s₁.authToken = s₂.authToken →
      isAuthenticated s₁ = isAuthenticated s₂) ∧
    (∀ evs : List AuthEvent,
      isAuthenticated (evs.foldl stepAuth ⟨none, none⟩)
        = (evs.foldl stepAuth ⟨none, none⟩).authToken.isSome) := by
  refine ⟨fun s => rfl, ?_, ?_, ?_⟩
  · intro s evs hevs
    have h := foldl_auth_token_none evs (stepAuth s (.responseEv 401)) rfl hevs
    simp [isAuthenticated, h, jsTruthyOpt]
  · intro s₁ s₂ h
    simp [isAuthenticated, h]
  · intro evs
    have h := foldl_auth_token_ne_blank evs ⟨none, none⟩ (by simp)
    cases htok : (evs.foldl stepAuth ⟨none, none⟩).authToken with
    | none => simp [isAuthenticated, htok, jsTruthyOpt]
    | some x =>
      have hx : x ≠ "" := by
        intro hx
        exact h (by rw [htok, hx])
      simp [isAuthenticated, htok, jsTruthyOpt, hx]

/-- Witness for C9 at a concrete store and trace: after a 401 and a further
unrelated 200 response, the protected-route check reports Unauthenticated. -/
theorem unauthorized_clears_token_store_witness :
    isAuthenticated
      ([AuthEvent.responseEv 200].foldl stepAuth
        (stepAuth ⟨some "tok", some "admin"⟩ (.responseEv 401))) = false :=
  unauthorized_clears_token_store.2.1 ⟨some "tok", some "admin"⟩
    [AuthEvent.responseEv 200] (by intro t u h; simp at h)

/-! Claim C7: phone validation. -/

theorem trimL_eq_nil_all_ws (l : List Char) (h : trimL l = []) :
    ∀ c ∈ l, isJsWs c = true := by
  unfold trimL at h
  rw [List.reverse_eq_nil_iff, List.dropWhile_eq_nil_iff] at h
  have hdrop : ∀ c ∈ l.dropWhile isJsWs, isJsWs c = true := by
    intro c hc
    exact h c (List.mem_reverse.mpr hc)
  intro c hc
  rw [← List.takeWhile_append_dropWhile (p := isJsWs) (l := l),
    List.mem_append] at hc
  rcases hc with hc | hc
  · exact List.mem_takeWhile_imp hc
  · exact hdrop c hc

theorem matchPhone_of_trim_nil (p : List Char) (h : trimL p = []) :
    matchPhone (stripPhone p) = false := by
  have hall := trimL_eq_nil_all_ws p h
  have hnil : stripPhone p = [] := by
    rw [stripPhone, List.filter_eq_nil_iff]
    intro c hc
    simp [hall c hc]
  rw [hnil]
  rfl

/-- Claim C7: phone validation accepts a value iff, after stripping whitespace
and hyphens, it consists of 10 to 15 digits (an error keyed `phone` is
reported exactly otherwise); submission is blocked whenever any error exists;
and the concrete form with phone `"12a"` gets a phone validation error and
makes no API call. -/
theorem phone_validation_blocks_submission :
    (∀ fd : FormData,
      (∃ m, ("phone", m) ∈ validateForm fd) ↔
        matchPhone (stripPhone fd.phone.data) = false) ∧
    (∀ fd : FormData, validateForm fd ≠ [] → handleSubmit fd = false) ∧
    (("phone", "Invalid phone number (10-15 digits)") ∈ validateForm fd12a ∧
      handleSubmit fd12a = false) := by
  refine ⟨?_, ?_, ?_⟩
  · intro fd
    unfold validateForm
    split_ifs <;> simp_all [List.isEmpty_iff, matchPhone_of_trim_nil]
  · intro fd h
    simp [handleSubmit, h]
  · exact ⟨by decide, by decide⟩

/-- Witness for C7: the theorem applied to the concrete `"12a"` form shows the
API call is not made. -/
theorem phone_validation_blocks_submission_witness :
    handleSubmit fd12a = false :=
  phone_validation_blocks_submission.2.1 fd12a (by decide)

/-! Claim C10: the search filter is total only when every record carries an
email string. -/

theorem searchPredE_ok_of_email (search : String) (v : VisitorRecord)
    (h : v.email.isSome = true) : ∃ b, searchPredE search v = .ok b := by
  rcases Option.isSome_iff_exists.mp h with ⟨e, he⟩
  unfold searchPredE
  rw [he]
  by_cases h1 :
      subS search (lowerS (orDefault v.name (orDefault v.full_name ""))) <;>
    by_cases h2 : subS search (lowerS e) <;> simp [h1, h2]

theorem filterE_isOk_of_pointwise (p : α → Except JsErr Bool) (l : List α)
    (h : ∀ v ∈ l, ∃ b, p v = .ok b) : ∃ r, filterE p l = .ok r := by
  induction l with
  | nil => exact ⟨[], rfl⟩
  | cons x t ih =>
    rcases h x (by simp) with ⟨b, hb⟩
    rcases ih (fun v hv => h v (by simp [hv])) with ⟨r, hr⟩
    exact ⟨if b then x :: r else r, by simp [filterE, hb, hr]⟩

/-- Claim C10: the search filter is total under the precondition that every
record carries an email string; a record missing both name variants is
tolerated (treated as an empty name, still matched through email or phone),
and one missing both phone variants is tolerated, but a record with no email
field makes the filter throw a TypeError for a non-empty search the name does
not match (concretely, search `"x"` over `[noEmailRec]`). -/
theorem search_filter_email_totality :
    (∀ (s : String) (l : List VisitorRecord),
      (∀ v ∈ l, v.email.isSome = true) →
      ∃ out, searchStage s l = .ok out) ∧
    (∀ (search : String) (v : VisitorRecord) (e : String),
      search ≠ "" → v.name = none → v.full_name = none → v.email = some e →
      searchPredE search v =
        .ok (subS search (lowerS e) ||
          subS search (orDefault v.phone (orDefault v.phone_number "")))) ∧
    (∀ (search : String) (v : VisitorRecord),
      v.phone = none → v.phone_number = none → v.email.isSome = true →
      ∃ b, searchPredE search v = .ok b) ∧
    searchStage "x" [noEmailRec] = .error .typeError := by
  refine ⟨?_, ?_, ?_, rfl⟩
  · intro s l h
    unfold searchStage
    by_cases hs : jsTruthyS s = true
    · rw [if_pos hs]
      exact filterE_isOk_of_pointwise _ l fun v hv =>
        searchPredE_ok_of_email _ v (h v hv)
    · rw [if_neg (by simpa using hs)]
      exact ⟨l, rfl⟩
  · intro search v e hsearch hn hf he
    have hdata : search.data ≠ [] := by
      intro hd
      apply hsearch
      cases search with
      | mk d =>
        show String.mk d = String.mk []
        exact congrArg String.mk hd
    have hname : subS search (lowerS (orDefault v.name
        (orDefault v.full_name ""))) = false := by
      rw [hn, hf]
      show subL search.data [] = false
      cases hd : search.data with
      | nil => exact absurd hd hdata
      | cons c cs => simp [subL, List.isEmpty]
    unfold searchPredE
    rw [hname, he]
    by_cases h2 : subS search (lowerS e) <;> simp [h2]
  · intro search v _ _ he
    exact searchPredE_ok_of_email search v he

/-- Witness for C10: totality applied at a concrete record that carries an
email. -/
theorem search_filter_email_totality_witness :
    ∃ out, searchStage "zz" [aliceRec] = .ok out :=
  search_filter_email_totality.1 "zz" [aliceRec] (by decide)

/-! Claim C1: the search filter retains exactly the matching records. -/

theorem searchPredE_eq_matches (s : String) (v : VisitorRecord)
    (h : v.email.isSome = true) :
    searchPredE (lowerS s) v = .ok (matchesSearch s v) := by
  rcases Option.isSome_iff_exists.mp h with ⟨e, he⟩
  unfold searchPredE matchesSearch
  rw [he]
  by_cases h1 :
      subS (lowerS s) (lowerS (orDefault v.name (orDefault v.full_name "")))
    <;> by_cases h2 : subS (lowerS s) (lowerS e) <;> simp [h1, h2]

/-- Claim C1: for every record list (whose records carry email strings, the
precondition under which the filter is total — see C10) and every search
string, the search stage retains exactly the records whose lowercased name,
lowercased email, or phone has the lowercased search string as a substring;
an empty search retains everything.  In particular the scenario list
`[Alice, Bob]` filtered with search `"bo"` yields exactly `[Bob]`. -/
theorem search_filter_retains_matches :
    (∀ (l : List VisitorRecord) (s : String),
      (∀ v ∈ l, v.email.isSome = true) →
      searchStage s l =
        .ok (if s = "" then l else l.filter (matchesSearch s))) ∧
    applyFilters [aliceRec, bobRec] filterBo = .ok [bobRec] := by
  constructor
  · intro l s h
    unfold searchStage
    by_cases hs : s = ""
    · subst hs
      simp [jsTruthyS]
    · rw [if_pos (by simpa [jsTruthyS] using hs), if_neg hs]
      exact filterE_eq_filter _ _ l fun v hv =>
        searchPredE_eq_matches s v (h v hv)
  · rfl

/-- Witness for C1: the characterization applied to a concrete singleton
list. -/
theorem search_filter_retains_matches_witness :
    searchStage "al" [aliceRec] = .ok [aliceRec] := by
  have h := search_filter_retains_matches.1 [aliceRec] "al" (by decide)
  rw [h]
  rfl

/-! Claim C3: sorting by check-in timestamp. -/

/-- Counterexample for C3 as stated.  First two conjuncts: the code's sort
leaves the invalid-timestamp record in the middle of
`[t=100, invalid, t=0]` under `desc`, whereas sorting with the spec's
"timestamp = now" fallback (`now = 1000`) would put it on top — so the code
does not sort such records as if their timestamp were "now".  Last two
conjuncts: in the presence of an invalid-timestamp record, the records with
timestamps 0 and 100 keep the same relative order under both directions, so
toggling the sort direction does not reverse their order. -/
theorem sort_now_fallback_counterexample :
    stableSort (ltJS .desc) [recT100, recInv, recT0]
      = [recT100, recInv, recT0] ∧
    stableSort (ltSpecNow 1000 .desc) [recT100, recInv, recT0]
      = [recInv, recT100, recT0] ∧
    stableSort (ltJS .desc) [recT0, recInv, recT100]
      = [recT0, recInv, recT100] ∧
    stableSort (ltJS .asc) [recT0, recInv, recT100]
      = [recT0, recInv, recT100] :=
  ⟨rfl, rfl, rfl, rfl⟩

/-- Claim C3 as amended: the sort stage permutes the filtered records and,
when every record has a valid timestamp, orders them by check-in timestamp —
descending by default, ascending when toggled — and then toggling the
direction reverses the relative order of any two records with distinct
timestamps.  A record with a missing or unparsable timestamp is not given a
"now" fallback: the comparator returns NaN, treated as 0, so such a record
compares as tied with every record and simply keeps its relative position in
the stable sort. -/
theorem sort_by_timestamp_amended :
    (∀ (o : SortOrder) (l : List VisitorRecord),
      (∀ v ∈ l, (viewTime v).isSome = true) →
      (stableSort (ltJS o) l).Pairwise (tsSortedPair o)) ∧
    (∀ (o : SortOrder) (l : List VisitorRecord),
      (stableSort (ltJS o) l).Perm l) ∧
    (∀ (l : List VisitorRecord) (a b : VisitorRecord) (ta tb : Int),
      (∀ v ∈ l, (viewTime v).isSome = true) →
      a ∈ l → b ∈ l → viewTime a = some ta → viewTime b = some tb →
      ta < tb →
      List.Sublist [b, a] (stableSort (ltJS .desc) l) ∧
      List.Sublist [a, b] (stableSort (ltJS .asc) l)) ∧
    (∀ (o : SortOrder) (a b : VisitorRecord),
      viewTime a = none ∨ viewTime b = none → ltJS o a b = false) := by
  have hsorted : ∀ (o : SortOrder) (l : List VisitorRecord),
      (∀ v ∈ l, (viewTime v).isSome = true) →
      (stableSort (ltJS o) l).Pairwise (tsSortedPair o) := by
    intro o l h
    refine pairwise_stableSort _ _ l ?_ ?_ ?_
    · intro a _ b _ hab ta tb hta htb
      cases o <;> simp [ltJS, cmpJS, hta, htb] at hab ⊢ <;> omega
    · intro a _ b _ hba ta tb hta htb
      cases o <;> simp [ltJS, cmpJS, hta, htb] at hba ⊢ <;> omega
    · intro a ha b hb c hc hba hbc
      rcases Option.isSome_iff_exists.mp (h a ha) with ⟨ta, hta⟩
      rcases Option.isSome_iff_exists.mp (h b hb) with ⟨tb, htb⟩
      rcases Option.isSome_iff_exists.mp (h c hc) with ⟨tc, htc⟩
      have hrel := hbc tb tc htb htc
      cases o <;>
        simp [ltJS, cmpJS, hta, htb, htc] at hba hrel ⊢ <;> omega
  refine ⟨hsorted, fun o l => stableSort_perm _ l, ?_, ?_⟩
  · intro l a b ta tb h ha hb hta htb htab
    have hne : a ≠ b := by
      intro e
      rw [e, htb] at hta
      simp at hta
      omega
    constructor
    · have hmem_a : a ∈ stableSort (ltJS .desc) l :=
        (mem_stableSort _ a l).mpr ha
      have hmem_b : b ∈ stableSort (ltJS .desc) l :=
        (mem_stableSort _ b l).mpr hb
      rcases sublist_pair_of_mem hne hmem_a hmem_b with hsub | hsub
      · exfalso
        have hp := (hsorted .desc l h).sublist hsub
        have := (List.pairwise_cons.mp hp).1 b (by simp) ta tb hta htb
        omega
      · exact hsub
    · have hmem_a : a ∈ stableSort (ltJS .asc) l :=
        (mem_stableSort _ a l).mpr ha
      have hmem_b : b ∈ stableSort (ltJS .asc) l :=
        (mem_stableSort _ b l).mpr hb
      rcases sublist_pair_of_mem hne hmem_a hmem_b with hsub | hsub
      · exact hsub
      · exfalso
        have hp := (hsorted .asc l h).sublist hsub
        have := (List.pairwise_cons.mp hp).1 a (by simp) tb ta htb hta
        omega
  · intro o a b hab
    rcases hab with ha | hb
    · simp [ltJS, cmpJS, ha]
    · cases hva : viewTime a <;> simp [ltJS, cmpJS, hva, hb]

/-- Witness for C3 (amended): on the concrete valid two-record list the
descending sort puts the later record first and the ascending sort reverses
that. -/
theorem sort_by_timestamp_amended_witness :
    List.Sublist [recT100, recT0] (stableSort (ltJS .desc) [recT0, recT100])
      ∧
    List.Sublist [recT0, recT100]
      (stableSort (ltJS .asc) [recT0, recT100]) :=
  sort_by_timestamp_amended.2.2.1 [recT0, recT100] recT0 recT100 0 100
    (by decide) (by simp) (by simp) rfl rfl (by decide)

/-! Claim C6: purity and idempotence of the filter pipeline. -/

theorem searchStage_ok_mem (s : String) (l r : List VisitorRecord)
    (h : searchStage s l = .ok r) :
    ∀ v ∈ r, v ∈ l ∧
      (jsTruthyS s = true → searchPredE (lowerS s) v = .ok true) := by
  unfold searchStage at h
  by_cases hs : jsTruthyS s = true
  · rw [if_pos hs] at h
    intro v hv
    exact ⟨(filterE_ok_mem _ l r h v hv).1,
      fun _ => (filterE_ok_mem _ l r h v hv).2⟩
  · rw [if_neg hs] at h
    cases h
    intro v hv
    exact ⟨hv, fun ht => absurd ht hs⟩

theorem searchStage_ok_self (s : String) (l : List VisitorRecord)
    (h : ∀ v ∈ l, jsTruthyS s = true → searchPredE (lowerS s) v = .ok true) :
    searchStage s l = .ok l := by
  unfold searchStage
  by_cases hs : jsTruthyS s = true
  · rw [if_pos hs]
    exact filterE_ok_self _ l fun v hv => h v hv hs
  · rw [if_neg hs]

theorem purposeStage_mem (pf : String) (l : List VisitorRecord) :
    ∀ v ∈ purposeStage pf l, v ∈ l ∧
      ((jsTruthyS pf = true ∧ pf ≠ "All") → v.purpose = some pf) := by
  unfold purposeStage
  by_cases hc : jsTruthyS pf = true ∧ pf ≠ "All"
  · rw [if_pos hc]
    intro v hv
    exact ⟨(List.mem_filter.mp hv).1,
      fun _ => by simpa using (List.mem_filter.mp hv).2⟩
  · rw [if_neg hc]
    exact fun v hv => ⟨hv, fun h => absurd h hc⟩

theorem purposeStage_self (pf : String) (l : List VisitorRecord)
    (h : ∀ v ∈ l, (jsTruthyS pf = true ∧ pf ≠ "All") → v.purpose = some pf) :
    purposeStage pf l = l := by
  unfold purposeStage
  by_cases hc : jsTruthyS pf = true ∧ pf ≠ "All"
  · rw [if_pos hc]
    exact List.filter_eq_self.mpr fun v hv => by simp [h v hv hc]
  · rw [if_neg hc]

theorem dateStage_ok_mem (sd ed : String) (l r : List VisitorRecord)
    (h : dateStage sd ed l = .ok r) :
    ∀ v ∈ r, v ∈ l ∧
      (jsTruthyS sd = true → dateBoundPredE strGeS sd v = .ok true) ∧
      (jsTruthyS ed = true → dateBoundPredE strLeS ed v = .ok true) := by
  unfold dateStage at h
  by_cases hsd : jsTruthyS sd = true
  · rw [if_pos hsd] at h
    cases h1 : filterE (dateBoundPredE strGeS sd) l with
    | error e => rw [h1] at h; simp at h
    | ok l₁ =>
      rw [h1] at h
      have h' : (if jsTruthyS ed = true then
          filterE (dateBoundPredE strLeS ed) l₁ else Except.ok l₁)
          = Except.ok r := h
      by_cases hed : jsTruthyS ed = true
      · rw [if_pos hed] at h'
        intro v hv
        have h2 := filterE_ok_mem _ l₁ r h' v hv
        have h3 := filterE_ok_mem _ l l₁ h1 v h2.1
        exact ⟨h3.1, fun _ => h3.2, fun _ => h2.2⟩
      · rw [if_neg hed] at h'
        intro v hv
        rw [← Except.ok.inj h'] at hv
        have h3 := filterE_ok_mem _ l l₁ h1 v hv
        exact ⟨h3.1, fun _ => h3.2, fun ht => absurd ht hed⟩
  · rw [if_neg hsd] at h
    have h' : (if jsTruthyS ed = true then
        filterE (dateBoundPredE strLeS ed) l else Except.ok l)
        = Except.ok r := h
    by_cases hed : jsTruthyS ed = true
    · rw [if_pos hed] at h'
      intro v hv
      have h2 := filterE_ok_mem _ l r h' v hv
      exact ⟨h2.1, fun ht => absurd ht hsd, fun _ => h2.2⟩
    · rw [if_neg hed] at h'
      intro v hv
      rw [← Except.ok.inj h'] at hv
      exact ⟨hv, fun ht => absurd ht hsd, fun ht => absurd ht hed⟩

theorem dateStage_ok_self (sd ed : String) (l : List VisitorRecord)
    (h : ∀ v ∈ l,
      (jsTruthyS sd = true → dateBoundPredE strGeS sd v = .ok true) ∧
      (jsTruthyS ed = true → dateBoundPredE strLeS ed v = .ok true)) :
    dateStage sd ed l = .ok l := by
  unfold dateStage
  by_cases hsd : jsTruthyS sd = true
  · rw [if_pos hsd,
      filterE_ok_self _ l (fun v hv => (h v hv).1 hsd)]
    show (if jsTruthyS ed = true then
        filterE (dateBoundPredE strLeS ed) l else Except.ok l)
        = Except.ok l
    by_cases hed : jsTruthyS ed = true
    · rw [if_pos hed]
      exact filterE_ok_self _ l fun v hv => (h v hv).2 hed
    · rw [if_neg hed]
  · rw [if_neg hsd]
    show (if jsTruthyS ed = true then
        filterE (dateBoundPredE strLeS ed) l else Except.ok l)
        = Except.ok l
    by_cases hed : jsTruthyS ed = true
    · rw [if_pos hed]
      exact filterE_ok_self _ l fun v hv => (h v hv).2 hed
    · rw [if_neg hed]

/-- Claim C6: the filtered view is a pure function of the raw list and the
FilterState (two evaluations on equal inputs agree), and filtering is
idempotent: re-applying `applyFilters` with the same FilterState to a
successful output returns exactly that output. -/
theorem filter_pipeline_pure_and_idempotent :
    (∀ (l₁ l₂ : List VisitorRecord) (f₁ f₂ : FilterState),
      l₁ = l₂ → f₁ = f₂ → applyFilters l₁ f₁ = applyFilters l₂ f₂) ∧
    (∀ (l : List VisitorRecord) (f : FilterState) (out : List VisitorRecord),
      applyFilters l f = .ok out → applyFilters out f = .ok out) := by
  constructor
  · intro l₁ l₂ f₁ f₂ h1 h2
    rw [h1, h2]
  · intro l f out h
    unfold applyFilters at h
    cases h₁ : searchStage f.searchTerm l with
    | error e => rw [h₁] at h; simp at h
    | ok l₁ =>
      rw [h₁] at h
      have h₂ : (match dateStage f.startDate f.endDate
            (purposeStage f.purposeFilter l₁) with
          | Except.error e => Except.error e
          | Except.ok l₃ => Except.ok (stableSort (ltJS f.sortOrder) l₃))
          = Except.ok out := h
      cases h₃ : dateStage f.startDate f.endDate
          (purposeStage f.purposeFilter l₁) with
      | error e => rw [h₃] at h₂; simp at h₂
      | ok l₃ =>
        rw [h₃] at h₂
        replace h₂ := Except.ok.inj h₂
        subst h₂
        -- facts about the members of the output
        have hmem : ∀ v ∈ stableSort (ltJS f.sortOrder) l₃, v ∈ l₃ :=
          fun v hv => (mem_stableSort _ v l₃).mp hv
        have hdate := dateStage_ok_mem f.startDate f.endDate _ l₃ h₃
        have hpurp := purposeStage_mem f.purposeFilter l₁
        have hsearch := searchStage_ok_mem f.searchTerm l l₁ h₁
        -- re-running each stage on the output changes nothing
        have s1 : searchStage f.searchTerm
            (stableSort (ltJS f.sortOrder) l₃)
            = .ok (stableSort (ltJS f.sortOrder) l₃) :=
          searchStage_ok_self _ _ fun v hv ht =>
            (hsearch v (hpurp v (hdate v (hmem v hv)).1).1).2 ht
        have s2 : purposeStage f.purposeFilter
            (stableSort (ltJS f.sortOrder) l₃)
            = stableSort (ltJS f.sortOrder) l₃ :=
          purposeStage_self _ _ fun v hv hc =>
            (hpurp v (hdate v (hmem v hv)).1).2 hc
        have s3 : dateStage f.startDate f.endDate
            (stableSort (ltJS f.sortOrder) l₃)
            = .ok (stableSort (ltJS f.sortOrder) l₃) :=
          dateStage_ok_self _ _ _ fun v hv =>
            ⟨(hdate v (hmem v hv)).2.1, (hdate v (hmem v hv)).2.2⟩
        have s4 : stableSort (ltJS f.sortOrder)
            (stableSort (ltJS f.sortOrder) l₃)
            = stableSort (ltJS f.sortOrder) l₃ :=
          stableSort_idem _ (ltJS_asymm f.sortOrder) l₃
        unfold applyFilters
        rw [s1]
        show (match dateStage f.startDate f.endDate
            (purposeStage f.purposeFilter
              (stableSort (ltJS f.sortOrder) l₃)) with
          | Except.error e => Except.error e
          | Except.ok m =>
            Except.ok (stableSort (ltJS f.sortOrder) m))
          = Except.ok (stableSort (ltJS f.sortOrder) l₃)
        rw [s2, s3]
        show Except.ok (stableSort (ltJS f.sortOrder)
            (stableSort (ltJS f.sortOrder) l₃))
          = Except.ok (stableSort (ltJS f.sortOrder) l₃)
        rw [s4]

/-- Witness for C6: idempotence applied to the concrete Alice/Bob search
scenario. -/
theorem filter_pipeline_pure_and_idempotent_witness :
    applyFilters [bobRec] filterBo = .ok [bobRec] :=
  filter_pipeline_pure_and_idempotent.2 [aliceRec, bobRec] filterBo [bobRec]
    (by rfl)

/-! Claim C2: the date-range predicate. -/

/-- Counterexample for C2 as stated.  In a UTC+5:30 environment (offset 330
minutes), the record checked in at 72000000 ms (1970-01-01T20:00Z) has local
calendar date 1970-01-02, which satisfies the bound `start = "1970-01-02"` —
so by the claim the record should be retained — yet the code drops it, because
it compares the UTC date `toISOString` yields (1970-01-01), not the local
one. -/
theorem date_filter_local_date_counterexample :
    applyFilters [lateEveningRec] filterStart = .ok [] ∧
    viewTime lateEveningRec = some 72000000 ∧
    isoDateStr 72000000 = "1970-01-01" ∧
    localDateStr 330 72000000 = "1970-01-02" ∧
    strGeS (localDateStr 330 72000000) filterStart.startDate = true :=
  ⟨rfl, rfl, rfl, rfl, rfl⟩

/-- Claim C2 as amended: for records with valid timestamps, the date stage
retains exactly the records whose UTC calendar date (the date part of the
ISO rendering of the check-in instant — not the local calendar date) is
`>= start` when `start` is set and `<= end` when `end` is set, both compared
as ISO date strings. -/
theorem date_filter_utc_range_amended :
    ∀ (l : List VisitorRecord) (sd ed : String),
      (∀ v ∈ l, (viewTime v).isSome = true) →
      dateStage sd ed l = .ok (l.filter (datePassB sd ed)) := by
  intro l sd ed h
  have hpt : ∀ (cmp : String → String → Bool) (bound : String),
      ∀ v ∈ l, dateBoundPredE cmp bound v =
        .ok (cmp (isoDateStr ((viewTime v).getD 0)) bound) := by
    intro cmp bound v hv
    rcases Option.isSome_iff_exists.mp (h v hv) with ⟨ms, hms⟩
    simp [dateBoundPredE, hms]
  unfold dateStage
  by_cases hsd : jsTruthyS sd = true
  · rw [if_pos hsd, filterE_eq_filter _
      (fun v => strGeS (isoDateStr ((viewTime v).getD 0)) sd) l (hpt _ sd)]
    show (if jsTruthyS ed = true then
        filterE (dateBoundPredE strLeS ed)
          (l.filter fun v => strGeS (isoDateStr ((viewTime v).getD 0)) sd)
      else Except.ok
        (l.filter fun v => strGeS (isoDateStr ((viewTime v).getD 0)) sd))
      = Except.ok (l.filter (datePassB sd ed))
    by_cases hed : jsTruthyS ed = true
    · rw [if_pos hed, filterE_eq_filter _
        (fun v => strLeS (isoDateStr ((viewTime v).getD 0)) ed) _
        (fun v hv => hpt _ ed v (List.mem_filter.mp hv).1)]
      rw [List.filter_filter]
      exact congrArg Except.ok
        (List.filter_congr fun v _ => by
          simp [datePassB, hsd, hed, Bool.and_comm])
    · rw [if_neg hed]
      have hed' : jsTruthyS ed = false := by simpa using hed
      exact congrArg Except.ok
        (List.filter_congr fun v _ => by simp [datePassB, hsd, hed'])
  · rw [if_neg hsd]
    show (if jsTruthyS ed = true then
        filterE (dateBoundPredE strLeS ed) l else Except.ok l)
      = Except.ok (l.filter (datePassB sd ed))
    by_cases hed : jsTruthyS ed = true
    · rw [if_pos hed, filterE_eq_filter _
        (fun v => strLeS (isoDateStr ((viewTime v).getD 0)) ed) l (hpt _ ed)]
      have hsd' : jsTruthyS sd = false := by simpa using hsd
      exact congrArg Except.ok
        (List.filter_congr fun v _ => by simp [datePassB, hed, hsd'])
    · rw [if_neg hed]
      have hsd' : jsTruthyS sd = false := by simpa using hsd
      have hed' : jsTruthyS ed = false := by simpa using hed
      refine congrArg Except.ok ?_
      refine (List.filter_eq_self.mpr ?_).symm
      intro v _
      simp [datePassB, hsd', hed']

/-- Witness for C2 (amended): on the concrete record, a satisfied start bound
retains it. -/
theorem date_filter_utc_range_amended_witness :
    dateStage "1970-01-01" "" [lateEveningRec] = .ok [lateEveningRec] := by
  have h := date_filter_utc_range_amended [lateEveningRec] "1970-01-01" ""
    (by decide)
  rw [h]
  rfl

/-! Claim C4: pagination. -/

theorem pages_concat {α : Type} (s : Nat) (hs : 0 < s) :
    ∀ (k : Nat) (l : List α), l.length ≤ k * s →
      (List.range k).flatMap (fun i => (l.drop (i * s)).take s) = l := by
  intro k
  induction k with
  | zero =>
    intro l hl
    have hnil : l = [] := by
      cases l with
      | nil => rfl
      | cons x t => simp at hl
    subst hnil
    simp
  | succ k ih =>
    intro l hl
    rw [List.range_succ_eq_map, List.flatMap_cons]
    simp only [Nat.zero_mul, List.drop_zero]
    have hmap : (List.map Nat.succ (List.range k)).flatMap
        (fun i => (l.drop (i * s)).take s)
        = (List.range k).flatMap
          (fun i => ((l.drop s).drop (i * s)).take s) := by
      rw [List.flatMap_map]
      refine congrArg (List.range k).flatMap (funext fun i => ?_)
      rw [List.drop_drop]
      have harith : s + i * s = Nat.succ i * s := by
        rw [Nat.succ_mul]
        omega
      rw [harith]
    have hmul : (k + 1) * s = k * s + s := by ring
    rw [hmap, ih (l.drop s) (by simp; omega), List.take_append_drop]

theorem totalPages_mul_ge (l : List VisitorRecord) (s : Nat) (hs : 0 < s) :
    l.length ≤ totalPages l s * s := by
  unfold totalPages
  rcases Nat.eq_zero_or_pos l.length with h0 | hpos
  · simp [h0]
  · have hnum : l.length + s - 1 = (l.length - 1) + s := by omega
    rw [hnum, Nat.add_div_right _ hs]
    have hdm := Nat.div_add_mod (l.length - 1) s
    have hmod := Nat.mod_lt (l.length - 1) hs
    calc l.length = (l.length - 1) + 1 := by omega
      _ = (s * ((l.length - 1) / s) + (l.length - 1) % s) + 1 := by rw [hdm]
      _ ≤ s * ((l.length - 1) / s) + s := by omega
      _ = ((l.length - 1) / s + 1) * s := by ring

/-- Claim C4: `currentItems` returns exactly the records at indices
`[(n-1)*size, n*size)` of the filtered list, `totalPages` is the ceiling of
`length / size`, the pages taken in order concatenate back to the whole list
(so they partition it with no overlap and no gap), and every page — the last
in particular — has length at most `size`. -/
theorem pagination_partitions :
    ∀ (l : List VisitorRecord) (size : Nat), 0 < size →
      (∀ n i, (currentItems l n size)[i]? =
        if i < size then l[(n - 1) * size + i]? else none) ∧
      totalPages l size = ⌈(l.length : ℚ) / (size : ℚ)⌉₊ ∧
      (List.range (totalPages l size)).flatMap
        (fun i => currentItems l (i + 1) size) = l ∧
      (∀ n, (currentItems l n size).length ≤ size) := by
  intro l s hs
  refine ⟨?_, ?_, ?_, ?_⟩
  · intro n i
    unfold currentItems
    by_cases hi : i < s
    · rw [if_pos hi, List.getElem?_take, if_pos hi, List.getElem?_drop]
    · rw [if_neg hi, List.getElem?_take, if_neg hi]
  · have hs' : (0 : ℚ) < (s : ℚ) := by exact_mod_cast hs
    rcases Nat.eq_zero_or_pos l.length with h0 | hpos
    · rw [h0]
      unfold totalPages
      rw [h0]
      simp [Nat.div_eq_of_lt (by omega : s - 1 < s)]
    · have hq : totalPages l s = (l.length - 1) / s + 1 := by
        unfold totalPages
        have hnum : l.length + s - 1 = (l.length - 1) + s := by omega
        rw [hnum, Nat.add_div_right _ hs]
      rw [hq]
      refine ((Nat.ceil_eq_iff (Nat.succ_ne_zero _)).mpr ⟨?_, ?_⟩).symm
      · have hup : (l.length - 1) / s * s ≤ l.length - 1 :=
          Nat.div_mul_le_self _ _
        have hlt : (((l.length - 1) / s : ℕ) : ℚ) * (s : ℚ)
            < (l.length : ℚ) := by
          have : ((l.length - 1) / s * s : ℕ) < l.length := by omega
          exact_mod_cast this
        have := (lt_div_iff₀ hs').mpr hlt
        simpa using this
      · have hge := totalPages_mul_ge l s hs
        rw [hq] at hge
        have : (l.length : ℚ) ≤ (((l.length - 1) / s + 1 : ℕ) : ℚ)
            * (s : ℚ) := by exact_mod_cast hge
        exact (div_le_iff₀ hs').mpr this
  · have hge := totalPages_mul_ge l s hs
    have := pages_concat s hs (totalPages l s) l hge
    simpa [currentItems] using this
  · intro n
    unfold currentItems
    simp [List.length_take]

/-- Witness for C4 at a concrete list of three records and page size two. -/
theorem pagination_partitions_witness :
    (List.range (totalPages [recT0, recT100, recInv] 2)).flatMap
      (fun i => currentItems [recT0, recT100, recInv] (i + 1) 2)
      = [recT0, recT100, recInv] ∧
    (currentItems [recT0, recT100, recInv] 2 2).length ≤ 2 := by
  have h := pagination_partitions [recT0, recT100, recInv] 2 (by decide)
  exact ⟨h.2.2.1, h.2.2.2 2⟩

/-! Claim C5: dashboard aggregation. -/

/-- Counterexample for C5 as stated.  At the instant 0 (midnight 1970-01-01,
offset 0), a single record dated one millisecond into the next day is counted
by the code's `today_visitors` (its predicate is `checkinTime >= today`, with
no upper bound), yet its check-in date does not equal today, so the claimed
"count with check-in date == today" is 0. -/
theorem dashboard_today_counterexample :
    (fetchStats 0 0 [futureRec]).today_visitors = 1 ∧
    specTodayCount 0 0 [futureRec] = 0 ∧
    (fetchStats 0 0 [futureRec]).total_visitors = 1 :=
  ⟨rfl, by decide, rfl⟩

theorem fetchStats_foldl_counts (off nowMs : Int)
    (l : List VisitorRecord) (acc : DashStats) :
    l.foldl
      (fun acc v =>
        let t := dashTime nowMs v
        { total_visitors := acc.total_visitors + 1
          today_visitors := acc.today_visitors +
            if geNaN t (todayStart off nowMs) then 1 else 0
          this_week_visitors := acc.this_week_visitors +
            if geNaN t (weekStartMs off nowMs) then 1 else 0
          this_month_visitors := acc.this_month_visitors +
            if geNaN t (monthStartMs off nowMs) then 1 else 0 }) acc
      = ⟨acc.total_visitors + l.length,
        acc.today_visitors +
          l.countP (fun v => geNaN (dashTime nowMs v) (todayStart off nowMs)),
        acc.this_week_visitors +
          l.countP (fun v => geNaN (dashTime nowMs v) (weekStartMs off nowMs)),
        acc.this_month_visitors +
          l.countP (fun v =>
            geNaN (dashTime nowMs v) (monthStartMs off nowMs))⟩ := by
  induction l generalizing acc with
  | nil => simp
  | cons x t ih =>
    rw [List.foldl_cons, ih]
    simp only [List.countP_cons, List.length_cons, DashStats.mk.injEq]
    refine ⟨by omega, ?_, ?_, ?_⟩ <;> (split <;> omega)

/-- Claim C5 as amended: the dashboard aggregation computes total = list
length, and threshold counts rather than calendar-range counts: the today,
week and month counters count the records whose check-in time (falling back
to the current instant when every timestamp field is absent; an unparsable
field gives NaN, which is never counted) is at least the start of the current
local day, at least the week-start moment (the Sunday of the current week at
the current time of day), and at least the first of the month containing that
week-start day, respectively — each with no upper bound.  In the scenario of
three records dated today, today == total == 3. -/
theorem dashboard_aggregation_amended :
    (∀ (off nowMs : Int) (l : List VisitorRecord),
      fetchStats off nowMs l =
        ⟨l.length,
         l.countP (fun v => geNaN (dashTime nowMs v) (todayStart off nowMs)),
         l.countP (fun v => geNaN (dashTime nowMs v) (weekStartMs off nowMs)),
         l.countP (fun v =>
           geNaN (dashTime nowMs v) (monthStartMs off nowMs))⟩) ∧
    ((fetchStats 0 45296000 [todayRec 1, todayRec 2, todayRec 3]).today_visitors
        = 3 ∧
      (fetchStats 0 45296000
          [todayRec 1, todayRec 2, todayRec 3]).total_visitors = 3) := by
  constructor
  · intro off nowMs l
    unfold fetchStats
    rw [fetchStats_foldl_counts off nowMs l ⟨0, 0, 0, 0⟩]
    simp
  · exact ⟨rfl, rfl⟩

end VisitorCheckin
